import Mathlib

/-!
Verification of LampDB: a shallow embedding of the error taxonomy, the
command queue, the MVCC version store, the KV HTTP endpoint, the CLI exit
codes, the SQL string encoder and the multiraft memory storage, with
theorems settling the specification's claims about each.
-/

namespace LampDB

/-- Keys are opaque byte strings ordered lexicographically (spec section 3);
bytes are modelled as naturals. -/
abbrev Key := List Nat

/-! ## Error taxonomy (proto package, src/unnamed/part_002)

The generated proto declarations for the enum and the error structs are not
under src/; the hand-written methods on them are (part_002).  The enum is
modelled from the spec; each struct keeps the payload fields the methods and
claims use. -/

/-- Modelled from the spec: the `TransactionRestart` wire enum (the proto
declaration is not under src/); spec section 6 lists the values
none, backoff, immediate. -/
inductive TransactionRestart where
  | NONE
  | BACKOFF
  | IMMEDIATE
  deriving DecidableEq, Repr

/-- A timestamp is (wall-nanoseconds, logical-counter), strictly totally
ordered lexicographically (spec section 3). -/
structure Timestamp where
  wallTime : Int
  logical : Int
  deriving DecidableEq, Repr

/-- Lexicographic order on timestamps: wall time first, then logical. -/
def Timestamp.Less (a b : Timestamp) : Prop :=
  a.wallTime < b.wallTime ∨ (a.wallTime = b.wallTime ∧ a.logical < b.logical)

instance : DecidablePred fun p : Timestamp × Timestamp => p.1.Less p.2 :=
  fun _ => by unfold Timestamp.Less; infer_instance

instance (a b : Timestamp) : Decidable (a.Less b) := by
  unfold Timestamp.Less; infer_instance

/-- `a ≤ b` on timestamps: not `b < a`. -/
def Timestamp.LessEq (a b : Timestamp) : Prop := ¬ b.Less a

instance (a b : Timestamp) : Decidable (a.LessEq b) := by
  unfold Timestamp.LessEq; infer_instance

/-- Transaction status (spec section 3: pending, committed, aborted). -/
inductive TransactionStatus where
  | PENDING
  | COMMITTED
  | ABORTED
  deriving DecidableEq, Repr

/-- Transaction record essentials (spec section 3). -/
structure Transaction where
  id : Nat
  priority : Int
  status : TransactionStatus
  epoch : Nat
  timestamp : Timestamp
  deriving DecidableEq, Repr

/-- TransactionAbortedError (part_002): carries the aborted transaction. -/
structure TransactionAbortedError where
  Txn : Transaction
  deriving DecidableEq, Repr

/-- part_002 line 149: `TransactionAbortedError.CanRestartTransaction`
returns `TransactionRestart_BACKOFF`. -/
def TransactionAbortedError.CanRestartTransaction
    (_ : TransactionAbortedError) : TransactionRestart :=
  TransactionRestart.BACKOFF

/-- TransactionPushError (part_002): pusher (optional) and pushee. -/
structure TransactionPushError where
  Txn : Option Transaction
  PusheeTxn : Transaction
  deriving DecidableEq, Repr

/-- part_002 line 168: `TransactionPushError.CanRestartTransaction` returns
`TransactionRestart_BACKOFF`. -/
def TransactionPushError.CanRestartTransaction
    (_ : TransactionPushError) : TransactionRestart :=
  TransactionRestart.BACKOFF

/-- TransactionRetryError (part_002): carries the transaction to retry. -/
structure TransactionRetryError where
  Txn : Transaction
  deriving DecidableEq, Repr

/-- part_002 line 184: `TransactionRetryError.CanRestartTransaction` returns
`TransactionRestart_IMMEDIATE`. -/
def TransactionRetryError.CanRestartTransaction
    (_ : TransactionRetryError) : TransactionRestart :=
  TransactionRestart.IMMEDIATE

/-- ReadWithinUncertaintyIntervalError (part_002): the read timestamp and the
existing future timestamp. -/
structure ReadWithinUncertaintyIntervalError where
  Timestamp : LampDB.Timestamp
  ExistingTimestamp : LampDB.Timestamp
  deriving DecidableEq, Repr

/-- part_002 line 221: `ReadWithinUncertaintyIntervalError.CanRestartTransaction`
returns `TransactionRestart_IMMEDIATE`. -/
def ReadWithinUncertaintyIntervalError.CanRestartTransaction
    (_ : ReadWithinUncertaintyIntervalError) : TransactionRestart :=
  TransactionRestart.IMMEDIATE

/-- LeaseRejectedError (part_002): existing and requested lease, kept
abstract as identifiers. -/
structure LeaseRejectedError where
  Existing : Nat
  Requested : Nat
  deriving DecidableEq, Repr

/-- part_002 line 94: `LeaseRejectedError.CanRetry` returns false. -/
def LeaseRejectedError.CanRetry (_ : LeaseRejectedError) : Bool := false

/-- RangeNotFoundError (part_002): carries the range id. -/
structure RangeNotFoundError where
  RangeID : Nat
  deriving DecidableEq, Repr

/-- part_002 line 111: `RangeNotFoundError.CanRetry` returns true. -/
def RangeNotFoundError.CanRetry (_ : RangeNotFoundError) : Bool := true

/-- RangeKeyMismatchError (part_002): requested span and (optionally) the
correct range's bounds. -/
structure RangeKeyMismatchError where
  RequestStartKey : Key
  RequestEndKey : Key
  RangeBounds : Option (Key × Key)
  deriving DecidableEq, Repr

/-- part_002 line 134: `RangeKeyMismatchError.CanRetry` returns true. -/
def RangeKeyMismatchError.CanRetry (_ : RangeKeyMismatchError) : Bool := true

/-- The kinds of error the sender-retry discipline speaks about
(spec section 7). -/
inductive ErrorKind where
  | notLeader
  | rangeNotFound
  | rangeKeyMismatch
  | nodeUnavailable
  | leaseRejected
  deriving DecidableEq, Repr

/-- Modelled from the spec: the Distributed Sender's retry discipline for
error kinds whose retry handling is not under src/ (spec section 7 lists
NotLeader, RangeNotFound, RangeKeyMismatch and NodeUnavailable as retryable
at the sender with updated routing). -/
def senderRetryable : ErrorKind → Bool
  | ErrorKind.notLeader => true
  | ErrorKind.rangeNotFound => true
  | ErrorKind.rangeKeyMismatch => true
  | ErrorKind.nodeUnavailable => true
  | ErrorKind.leaseRejected => false

/-! ## Command Queue (spec section 4.2)

Only the tests of the command queue are under src/
(src/storage/command_queue_test.go); the queue itself is modelled from the
spec.  A barrier's completion is modelled by its wait set becoming disjoint
from the outstanding commands, matching the WaitGroup discipline the tests
exercise. -/

/-- A command's key span: `endKey = none` means the span is the single key
`start` (the tests pass nil for point commands). -/
structure Span where
  start : Key
  endKey : Option Key
  readOnly : Bool
  deriving DecidableEq, Repr

/-- A key `k` lies in the span `[s, e)`, or equals `s` when `e` is absent. -/
def spanContains : Key → Option Key → Key → Prop
  | s, none, k => k = s
  | s, some e, k => s ≤ k ∧ k < e

instance (s : Key) (e : Option Key) (k : Key) : Decidable (spanContains s e k) := by
  cases e <;> · unfold spanContains; infer_instance

/-- Two spans overlap: computed interval test (point/point, point/range,
range/range with half-open bounds). -/
def spanOverlap : Key → Option Key → Key → Option Key → Prop
  | s1, none, s2, none => s1 = s2
  | s1, none, s2, some e2 => s2 ≤ s1 ∧ s1 < e2
  | s1, some e1, s2, none => s1 ≤ s2 ∧ s2 < e1
  | s1, some e1, s2, some e2 => s1 < e1 ∧ s2 < e2 ∧ s1 < e2 ∧ s2 < e1

instance (s1 : Key) (e1 : Option Key) (s2 : Key) (e2 : Option Key) :
    Decidable (spanOverlap s1 e1 s2 e2) := by
  cases e1 <;> cases e2 <;> · unfold spanOverlap; infer_instance

/-- Modelled from the spec: two commands conflict iff their key ranges
overlap and at least one of them is not read-only (spec section 4.2; the
command queue implementation is not under src/). -/
def SpanConflict (a b : Span) : Prop :=
  spanOverlap a.start a.endKey b.start b.endKey ∧
    (a.readOnly = false ∨ b.readOnly = false)

instance (a b : Span) : Decidable (SpanConflict a b) := by
  unfold SpanConflict; infer_instance

/-- Modelled from the spec: the per-range command queue (spec section 4.2);
outstanding commands are kept with the insertion id their `Add` returned. -/
structure CommandQueue where
  cmds : List (Nat × Span)
  nextID : Nat
  deriving DecidableEq, Repr

/-- Modelled from the spec: `NewCommandQueue` returns an empty queue. -/
def NewCommandQueue : CommandQueue := ⟨[], 0⟩

/-- Modelled from the spec: `Add(start, end, readOnly)` registers a pending
command and returns its handle (the fresh id). -/
def CommandQueue.Add (q : CommandQueue) (s : Key) (e : Option Key)
    (readOnly : Bool) : Nat × CommandQueue :=
  (q.nextID, ⟨q.cmds ++ [(q.nextID, ⟨s, e, readOnly⟩)], q.nextID + 1⟩)

/-- Modelled from the spec: `GetWait(start, end, readOnly, wg)` registers a
barrier; the returned wait set is the handles of all conflicting previously
added commands (each increments the caller's WaitGroup). -/
def CommandQueue.GetWait (q : CommandQueue) (s : Key) (e : Option Key)
    (readOnly : Bool) : List Nat :=
  (q.cmds.filter fun p => decide (SpanConflict ⟨s, e, readOnly⟩ p.2)).map
    fun p => p.1

/-- Modelled from the spec: `Remove(handle)` finalizes the command,
releasing barriers that waited on it. -/
def CommandQueue.Remove (q : CommandQueue) (id : Nat) : CommandQueue :=
  ⟨q.cmds.filter fun p => p.1 ≠ id, q.nextID⟩

/-- Modelled from the spec: `Clear()` drops all outstanding commands,
releasing every barrier unconditionally. -/
def CommandQueue.Clear (q : CommandQueue) : CommandQueue :=
  ⟨[], q.nextID⟩

/-- A barrier with the given wait set has completed in state `q`: no
outstanding command is still in its wait set. -/
def barrierDone (q : CommandQueue) (waitSet : List Nat) : Prop :=
  ∀ p ∈ q.cmds, p.1 ∉ waitSet

instance (q : CommandQueue) (w : List Nat) : Decidable (barrierDone q w) := by
  unfold barrierDone; infer_instance

/-- The interval test `spanOverlap` agrees with the existence of a shared
key. -/
theorem spanOverlap_iff_exists (s1 : Key) (e1 : Option Key) (s2 : Key)
    (e2 : Option Key) :
    spanOverlap s1 e1 s2 e2 ↔
      ∃ k, spanContains s1 e1 k ∧ spanContains s2 e2 k := by
  cases e1 with
  | none =>
    cases e2 with
    | none =>
      simp only [spanOverlap, spanContains]
      constructor
      · intro h; exact ⟨s1, rfl, h⟩
      · rintro ⟨k, rfl, h⟩; exact h
    | some f2 =>
      simp only [spanOverlap, spanContains]
      constructor
      · intro h; exact ⟨s1, rfl, h⟩
      · rintro ⟨k, rfl, h⟩; exact h
  | some f1 =>
    cases e2 with
    | none =>
      simp only [spanOverlap, spanContains]
      constructor
      · intro h; exact ⟨s2, h, rfl⟩
      · rintro ⟨k, h, rfl⟩; exact h
    | some f2 =>
      simp only [spanOverlap, spanContains]
      constructor
      · rintro ⟨h11, h22, h12, h21⟩
        refine ⟨max s1 s2, ⟨le_max_left s1 s2, max_lt h11 h21⟩,
          ⟨le_max_right s1 s2, max_lt h12 h22⟩⟩
      · rintro ⟨k, ⟨hs1, hk1⟩, ⟨hs2, hk2⟩⟩
        exact ⟨lt_of_le_of_lt hs1 hk1, lt_of_le_of_lt hs2 hk2,
          lt_of_le_of_lt hs1 hk2, lt_of_le_of_lt hs2 hk1⟩

/-- Removing a batch of handles only shrinks the outstanding set. -/
theorem mem_foldl_remove {W : List Nat} {q : CommandQueue} {p : Nat × Span}
    (h : p ∈ (W.foldl CommandQueue.Remove q).cmds) : p ∈ q.cmds := by
  induction W generalizing q with
  | nil => exact h
  | cons id rest ih =>
    have h' := ih (q := q.Remove id) h
    exact List.mem_of_mem_filter h'

/-- After folding `Remove` over a wait set, no member of the wait set is
outstanding. -/
theorem barrierDone_foldl_remove (W : List Nat) (q : CommandQueue) :
    barrierDone (W.foldl CommandQueue.Remove q) W := by
  induction W generalizing q with
  | nil => intro p _ hm; exact absurd hm (List.not_mem_nil p.1)
  | cons id rest ih =>
    intro p hp hm
    simp only [List.foldl_cons] at hp
    rcases List.mem_cons.mp hm with hid | hrest
    · have hq : p ∈ (q.Remove id).cmds := mem_foldl_remove hp
      have := List.of_mem_filter hq
      simp only [ne_eq, decide_not, Bool.not_eq_eq_eq_not, Bool.not_true,
        decide_eq_false_iff_not] at this
      exact this hid
    · exact ih (q := q.Remove id) p hp hrest

/-! ## MVCC version store (spec section 4.1)

The MVCC operations (storage/engine/mvcc.go) are not under src/; only the
generated proto structures are (part_008: MVCCValue, MVCCMetadata).  The
per-key version store and the Put/Get operations are modelled from the
spec: versions are kept newest-first with strictly decreasing timestamps. -/

/-- MVCCValue (part_008): tombstone flag plus the value bytes. -/
structure MVCCValue where
  Deleted : Bool
  Bytes : List Nat
  deriving DecidableEq, Repr

/-- WriteTooOldError (error detail proto; its `Error` formatting is in
part_002 line 211): the attempted timestamp and the existing newer one. -/
structure WriteTooOldError where
  Timestamp : LampDB.Timestamp
  ExistingTimestamp : LampDB.Timestamp
  deriving DecidableEq, Repr

/-- One key's versions, newest first with strictly decreasing timestamps
(spec section 8, MVCC monotonicity). -/
def versionsSorted (versions : List (Timestamp × MVCCValue)) : Prop :=
  versions.Pairwise fun a b => b.1.Less a.1

instance (versions : List (Timestamp × MVCCValue)) :
    Decidable (versionsSorted versions) := by
  unfold versionsSorted; infer_instance

/-- Strict timestamp order is transitive. -/
theorem Timestamp.Less.trans {a b c : Timestamp} (h1 : a.Less b)
    (h2 : b.Less c) : a.Less c := by
  unfold Timestamp.Less at *; omega

/-- Strict timestamp order is irreflexive. -/
theorem Timestamp.Less.irrefl (a : Timestamp) : ¬ a.Less a := by
  unfold Timestamp.Less; omega

/-- `a < b` implies `a ≤ b` on timestamps. -/
theorem Timestamp.Less.lessEq {a b : Timestamp} (h : a.Less b) :
    a.LessEq b := by
  unfold Timestamp.LessEq Timestamp.Less at *; omega

/-- `≤` on timestamps is reflexive. -/
theorem Timestamp.LessEq.refl (a : Timestamp) : a.LessEq a := by
  unfold Timestamp.LessEq Timestamp.Less; omega

/-- `≤` then `<` gives `<` on timestamps. -/
theorem Timestamp.LessEq.trans_less {a b c : Timestamp} (h1 : a.LessEq b)
    (h2 : b.Less c) : a.Less c := by
  unfold Timestamp.LessEq Timestamp.Less at *; omega

/-- Modelled from the spec: non-transactional `Put(key, value, writeTs)` on
one key's version list (spec section 4.1; mvcc.go is not under src/): if
the newest existing version is at `ts1 ≥ writeTs` the write fails with
WriteTooOld reporting `ts1` and leaves the versions unchanged, else the new
version is written.  Returns (error?, resulting versions). -/
def mvccPut (versions : List (Timestamp × MVCCValue)) (writeTs : Timestamp)
    (value : List Nat) : Option WriteTooOldError × List (Timestamp × MVCCValue) :=
  match versions with
  | [] => (none, [(writeTs, ⟨false, value⟩)])
  | (ts1, v1) :: rest =>
    if writeTs.LessEq ts1 then
      (some ⟨writeTs, ts1⟩, (ts1, v1) :: rest)
    else
      (none, (writeTs, ⟨false, value⟩) :: (ts1, v1) :: rest)

/-- Modelled from the spec: `Get(key, readTs)` on one key's version list
(spec section 4.1; mvcc.go is not under src/): the newest version with
timestamp ≤ readTs, excluding tombstones. -/
def mvccGet (versions : List (Timestamp × MVCCValue)) (readTs : Timestamp) :
    Option (List Nat) :=
  match versions with
  | [] => none
  | (ts1, v1) :: rest =>
    if ts1.LessEq readTs then
      (if v1.Deleted then none else some v1.Bytes)
    else
      mvccGet rest readTs

/-- In a sorted version list the head timestamp bounds every entry. -/
theorem versionsSorted_head_max {ts1 : Timestamp} {v1 : MVCCValue}
    {rest : List (Timestamp × MVCCValue)}
    (hs : versionsSorted ((ts1, v1) :: rest)) :
    ∀ p ∈ rest, p.1.Less ts1 := by
  intro p hp
  exact (List.pairwise_cons.mp hs).1 p hp

/-- `mvccGet` returns `some v` exactly when the newest version at or below
the read timestamp exists, is not a tombstone and holds `v`. -/
theorem mvccGet_characterization (versions : List (Timestamp × MVCCValue))
    (readTs : Timestamp) (v : List Nat) (hs : versionsSorted versions) :
    mvccGet versions readTs = some v ↔
      ∃ p ∈ versions, p.1.LessEq readTs ∧ p.2.Deleted = false ∧
        p.2.Bytes = v ∧
        ∀ q ∈ versions, q.1.LessEq readTs → q.1.LessEq p.1 := by
  induction versions with
  | nil => simp [mvccGet]
  | cons hd rest ih =>
    obtain ⟨ts1, v1⟩ := hd
    have hrest : versionsSorted rest := (List.pairwise_cons.mp hs).2
    have hmax := versionsSorted_head_max hs
    by_cases hle : ts1.LessEq readTs
    · rw [mvccGet, if_pos hle]
      by_cases hdel : v1.Deleted
      · constructor
        · intro h
          rw [if_pos hdel] at h
          exact absurd h (by simp)
        · rintro ⟨p, hp, hple, hpdel, _, hpmaxq⟩
          have hts1p : ts1.LessEq p.1 := hpmaxq (ts1, v1) (List.mem_cons_self _ _) hle
          rcases List.mem_cons.mp hp with heq | hpr
          · rw [heq] at hpdel
            simp only at hpdel
            rw [hpdel] at hdel
            exact absurd hdel (by simp)
          · exact absurd (hts1p.trans_less (hmax p hpr)) (Timestamp.Less.irrefl ts1)
      · rw [if_neg hdel]
        constructor
        · intro h
          refine ⟨(ts1, v1), List.mem_cons_self _ _, hle,
            Bool.eq_false_iff.mpr hdel, Option.some_injective _ h, ?_⟩
          intro q hq hqle
          rcases List.mem_cons.mp hq with heq | hqr
          · rw [heq]; exact Timestamp.LessEq.refl ts1
          · exact (hmax q hqr).lessEq
        · rintro ⟨p, hp, hple, hpdel, hbytes, hpmaxq⟩
          have hts1p : ts1.LessEq p.1 := hpmaxq (ts1, v1) (List.mem_cons_self _ _) hle
          rcases List.mem_cons.mp hp with heq | hpr
          · rw [heq] at hbytes
            rw [hbytes]
          · exact absurd (hts1p.trans_less (hmax p hpr)) (Timestamp.Less.irrefl ts1)
    · rw [mvccGet, if_neg hle, ih hrest]
      constructor
      · rintro ⟨p, hp, hple, hpdel, hbytes, hpmaxq⟩
        refine ⟨p, List.mem_cons_of_mem _ hp, hple, hpdel, hbytes, ?_⟩
        intro q hq hqle
        rcases List.mem_cons.mp hq with heq | hqr
        · rw [heq] at hqle; exact absurd hqle hle
        · exact hpmaxq q hqr hqle
      · rintro ⟨p, hp, hple, hpdel, hbytes, hpmaxq⟩
        rcases List.mem_cons.mp hp with heq | hpr
        · rw [heq] at hple; exact absurd hple hle
        · exact ⟨p, hpr, hple, hpdel, hbytes,
            fun q hq hqle => hpmaxq q (List.mem_cons_of_mem _ hq) hqle⟩

/-! ## KV HTTP endpoint (src/kv/db.go)

`DBServer.ServeHTTP` is embedded as a function of the outcomes of its
effectful steps (TLS authentication hook, URL parse, body read, unmarshal,
certificate check, response marshal); `verifyRequest`, the method table and
the control flow are translated from the source. -/

/-- The request methods the wire API speaks about.  The twelve public
methods come from db.go's `allPublicMethods`; the internal ones from the
spec's internal RPC list (spec section 6; the proto method enum is not
under src/). -/
inductive Method where
  | get
  | put
  | conditionalPut
  | increment
  | delete
  | deleteRange
  | scan
  | reverseScan
  | endTransaction
  | batch
  | adminSplit
  | adminMerge
  | internalBatch
  | internalPush
  | internalHeartbeat
  | resolveIntent
  | internalRangeLookup
  | truncateLog
  | leaderLease
  deriving DecidableEq, Repr

/-- db.go lines 63-76: the twelve methods of `allPublicMethods`. -/
def allPublicMethods : List Method :=
  [Method.get, Method.put, Method.conditionalPut, Method.increment,
   Method.delete, Method.deleteRange, Method.scan, Method.reverseScan,
   Method.endTransaction, Method.batch, Method.adminSplit, Method.adminMerge]

/-- A method is public iff it is in `allPublicMethods`. -/
def isPublicMethod (m : Method) : Bool := allPublicMethods.contains m

/-- A request as `verifyRequest` inspects it: an EndTransactionRequest with
or without an InternalCommitTrigger, a BatchRequest carrying its inner
requests' methods, or any other request identified by its method. -/
inductive Request where
  | endTransactionReq (hasInternalCommitTrigger : Bool)
  | batchReq (innerMethods : List Method)
  | otherReq (m : Method)
  deriving DecidableEq, Repr

/-- db.go lines 46-61 `verifyRequest`: rejects an EndTransactionRequest
carrying a commit trigger and a BatchRequest containing a non-public
request; everything else passes.  `true` means an error is returned. -/
def verifyRequest : Request → Bool
  | Request.endTransactionReq trigger => trigger
  | Request.batchReq ms => !(ms.all isPublicMethod)
  | Request.otherReq _ => false

/-- The outcomes of ServeHTTP's effectful steps, as seen by the handler. -/
structure DBHTTPRequest where
  /-- `security.AuthenticationHook` creation succeeded (TLS settings). -/
  tlsAuthOk : Bool
  /-- The URL path starts with the KV DB endpoint prefix. -/
  pathHasDBEndpoint : Bool
  /-- The trimmed path parsed as a known method name, if any. -/
  method : Option Method
  /-- `ioutil.ReadAll` on the body failed. -/
  bodyReadFails : Bool
  /-- The body unmarshalled into a request, if it did. -/
  body : Option Request
  /-- The authentication hook accepted the request's user. -/
  certUserOk : Bool
  /-- `util.MarshalResponse` on the reply failed. -/
  marshalFails : Bool
  deriving DecidableEq, Repr

/-- What the handler did: the HTTP status written (200 for a plain reply)
and whether the call reached the sender. -/
structure DBHTTPResponse where
  status : Nat
  forwardedToSender : Bool
  deriving DecidableEq, Repr

/-- db.go lines 135-190 `DBServer.ServeHTTP`: authentication hook creation
(401), endpoint prefix and method lookup (404; `createArgsAndReply` returns
nil for unknown and internal methods), body read (500), unmarshal (400),
`verifyRequest` (400), certificate user check (401), then the send through
the sender and response marshalling (500). -/
def ServeHTTP (r : DBHTTPRequest) : DBHTTPResponse :=
  if ¬ r.tlsAuthOk then ⟨401, false⟩
  else if ¬ r.pathHasDBEndpoint then ⟨404, false⟩
  else
    match r.method with
    | none => ⟨404, false⟩
    | some m =>
      if ¬ isPublicMethod m then ⟨404, false⟩
      else if r.bodyReadFails then ⟨500, false⟩
      else
        match r.body with
        | none => ⟨400, false⟩
        | some req =>
          if verifyRequest req then ⟨400, false⟩
          else if ¬ r.certUserOk then ⟨401, false⟩
          else if r.marshalFails then ⟨500, true⟩
          else ⟨200, true⟩

/-- All the checks ahead of the sender pass: TLS hook creation, endpoint
prefix, a known public method, body read, unmarshal, request verification
and the certificate user check. -/
def allChecksPass (r : DBHTTPRequest) : Bool :=
  r.tlsAuthOk && r.pathHasDBEndpoint &&
    (match r.method with
      | some m => isPublicMethod m
      | none => false) &&
    !r.bodyReadFails &&
    (match r.body with
      | some req => !(verifyRequest req)
      | none => false) &&
    r.certUserOk

/-! ## CLI exit codes (src/main.go, src/cli/zone.go)

`main` exits 1 when `cli.Run` returns an error and 0 otherwise.  The zone
subcommands are cobra `Run` (not `RunE`) callbacks returning nothing: they
log admin-client failures and return, so no error reaches `cli.Run`.  Each
callback is embedded as a function of its arguments and the outcomes of its
client calls, returning the error `cli.Run` sees from it. -/

/-- main.go lines 29-36: exit code 1 when `cli.Run` errs, 0 on a normal
return. -/
def mainExitCode (cliRunErr : Option String) : Nat :=
  match cliRunErr with
  | some _ => 1
  | none => 0

/-- cli/zone.go lines 44-57 `runGetZone`: wrong arity prints usage and
returns; a `GetYAML` failure is logged and the function returns; success
prints the config.  In every case no error is produced for `cli.Run`. -/
def runGetZone (args : List String) (getYAML : Except String String) :
    Option String :=
  if args.length ≠ 1 then none
  else
    match getYAML with
    | Except.error _ => none
    | Except.ok _ => none

/-- cli/zone.go lines 153-171 `runSetZone`: wrong arity prints usage; a
config-file read failure or a `SetYAML` failure is logged and the function
returns; success prints a confirmation.  No error reaches `cli.Run`. -/
def runSetZone (args : List String) (readFile : Except String String)
    (setYAML : Except String Unit) : Option String :=
  if args.length ≠ 2 then none
  else
    match readFile with
    | Except.error _ => none
    | Except.ok _ =>
      match setYAML with
      | Except.error _ => none
      | Except.ok _ => none

/-! ## Multiraft memory storage (src/multiraft/storage.go)

`MemoryStorage` keeps a map from group id to its raft storage object; the
identity of each `raft.NewMemoryStorage()` heap object is modelled by an
allocation token drawn from a counter. -/

/-- storage.go lines 57-60: the group map, plus the allocation counter
modelling object identity. -/
structure MemoryStorage where
  groups : List (Nat × Nat)
  nextToken : Nat
  deriving DecidableEq, Repr

/-- storage.go lines 66-70 `NewMemoryStorage`: an empty map. -/
def NewMemoryStorage : MemoryStorage := ⟨[], 0⟩

/-- Go map lookup `m.groups[groupID]`. -/
def lookupGroup : List (Nat × Nat) → Nat → Option Nat
  | [], _ => none
  | (gid, tok) :: rest, g => if gid = g then some tok else lookupGroup rest g

/-- storage.go lines 73-82 `MemoryStorage.GroupStorage`: return the stored
group storage; when absent, create a fresh one, store it and return it. -/
def MemoryStorage.GroupStorage (m : MemoryStorage) (groupID : Nat) :
    Nat × MemoryStorage :=
  match lookupGroup m.groups groupID with
  | some g => (g, m)
  | none =>
    (m.nextToken, ⟨m.groups ++ [(groupID, m.nextToken)], m.nextToken + 1⟩)

/-- Lookup after appending one binding: the old binding wins, and the new
one answers only for its own key. -/
theorem lookupGroup_append (l : List (Nat × Nat)) (gid tok g : Nat) :
    lookupGroup (l ++ [(gid, tok)]) g =
      match lookupGroup l g with
      | some x => some x
      | none => if gid = g then some tok else none := by
  induction l with
  | nil => rfl
  | cons p rest ih =>
    obtain ⟨pid, ptok⟩ := p
    by_cases h : pid = g
    · simp [lookupGroup, h]
    · simp [lookupGroup, h, ih]

/-! ## SQL string encoding (src/sql/parser/encode.go)

`encodeSQLString` walks the input with an index `i` and a run-start marker
`start`, emitting `e'` once at the first escaped byte; the escape table is
built by `init` from eight mapped bytes (`dontEscape` elsewhere).  Bytes
are naturals; characters appear by ASCII code (101 = e, 39 = quote,
92 = backslash). -/

/-- encode.go lines 111-132 `init`: the escape map; `none` stands for
`dontEscape`, otherwise the byte written after the backslash
(NUL to 0, backspace to b, form feed to f, newline to n, carriage return
to r, tab to t, backslash and quote to themselves). -/
def encodeMap (c : Nat) : Option Nat :=
  if c = 0 then some 48
  else if c = 8 then some 98
  else if c = 12 then some 102
  else if c = 10 then some 110
  else if c = 13 then some 114
  else if c = 9 then some 116
  else if c = 92 then some 92
  else if c = 39 then some 39
  else none

/-- encode.go lines 43-53, the loop of `encodeSQLString`: `rest` is
`inp.drop i`, `start` marks the pending unescaped run.  At an escaped byte
the `e'` opener is emitted if `start` is still 0, then the run
`inp[start:i]` and the backslash pair; returns the buffer and `start`
after the loop. -/
def encodeSQLStringLoop (inp : List Nat) :
    List Nat → Nat → Nat → List Nat → List Nat × Nat
  | [], _, start, buf => (buf, start)
  | ch :: rest, i, start, buf =>
    match encodeMap ch with
    | some ec =>
      encodeSQLStringLoop inp rest (i + 1) (i + 1)
        (((if start = 0 then buf ++ [101, 39] else buf) ++
          ((inp.drop start).take (i - start))) ++ [92, ec])
    | none => encodeSQLStringLoop inp rest (i + 1) start buf

/-- encode.go lines 41-60 `encodeSQLString`: the loop, then the plain
opening quote when nothing was escaped, the tail run and the closing
quote. -/
def encodeSQLString (buf inp : List Nat) : List Nat :=
  let r := encodeSQLStringLoop inp inp 0 0 buf
  ((if r.2 = 0 then r.1 ++ [39] else r.1) ++ inp.drop r.2) ++ [39]

/-- Byte-wise escaping: an escapable byte becomes backslash plus its mapped
character, any other byte stands verbatim. -/
def escapeBody : List Nat → List Nat
  | [] => []
  | c :: rest =>
    (match encodeMap c with
      | some e => [92, e]
      | none => [c]) ++ escapeBody rest

/-- Whether some byte of the input is subject to escaping. -/
def hasEscapable (inp : List Nat) : Bool :=
  inp.any fun c => (encodeMap c).isSome

/-- `escapeBody` distributes over append. -/
theorem escapeBody_append (l1 l2 : List Nat) :
    escapeBody (l1 ++ l2) = escapeBody l1 ++ escapeBody l2 := by
  induction l1 with
  | nil => rfl
  | cons c rest ih => simp [escapeBody, ih]

/-- `escapeBody` fixes inputs with no escapable byte. -/
theorem escapeBody_of_none {l : List Nat}
    (h : ∀ c ∈ l, encodeMap c = none) : escapeBody l = l := by
  induction l with
  | nil => rfl
  | cons c rest ih =>
    have hc := h c (List.mem_cons_self c rest)
    simp [escapeBody, hc, ih fun x hx => h x (List.mem_cons_of_mem c hx)]

/-- The loop invariant of `encodeSQLString`: `start` is 0 exactly while no
byte has been escaped, and the buffer extended by the pending run equals
the initial buffer, the `e'` opener (when a byte was escaped) and the
escaped body of the bytes seen so far. -/
theorem encodeSQLStringLoop_invariant (inp : List Nat) (buf0 : List Nat) :
    ∀ (rest : List Nat) (i start : Nat) (buf : List Nat),
      rest = inp.drop i → start ≤ i → i ≤ inp.length →
      ((start = 0) ↔ (∀ c ∈ inp.take i, encodeMap c = none)) →
      buf ++ (inp.take i).drop start =
        buf0 ++ (if start = 0 then [] else [101, 39]) ++
          escapeBody (inp.take i) →
      (((encodeSQLStringLoop inp rest i start buf).2 = 0) ↔
        (∀ c ∈ inp, encodeMap c = none)) ∧
      (encodeSQLStringLoop inp rest i start buf).1 ++
          inp.drop (encodeSQLStringLoop inp rest i start buf).2 =
        buf0 ++
          (if (encodeSQLStringLoop inp rest i start buf).2 = 0 then []
            else [101, 39]) ++ escapeBody inp := by
  intro rest
  induction rest with
  | nil =>
    intro i start buf hrest hsi hilen hiff hbuf
    have hlen : inp.length ≤ i := List.drop_eq_nil_iff.mp hrest.symm
    have htake : inp.take i = inp := List.take_of_length_le hlen
    rw [htake] at hiff hbuf
    exact ⟨hiff, hbuf⟩
  | cons ch rest' ih =>
    intro i start buf hrest hsi hilen hiff hbuf
    have hch : inp[i]? = some ch := by
      have h0 : (inp.drop i)[0]? = some ch := by rw [← hrest]; simp
      rw [List.getElem?_drop] at h0
      simpa using h0
    have hlt : i < inp.length := by
      rcases List.getElem?_eq_some.mp hch with ⟨h, -⟩
      exact h
    have hrest' : rest' = inp.drop (i + 1) := by
      have h1 : (inp.drop i).drop 1 = rest' := by
        rw [← hrest]
        simp
      rw [List.drop_drop] at h1
      rw [← h1, Nat.add_comm]
    have htake1 : inp.take (i + 1) = inp.take i ++ [ch] := by
      rw [List.take_succ, hch]
      rfl
    have htakelen : (inp.take i).length = i := by
      simp [List.length_take, Nat.min_eq_left (Nat.le_of_lt hlt)]
    cases hm : encodeMap ch with
    | some ec =>
      simp only [encodeSQLStringLoop, hm]
      apply ih (i + 1) (i + 1) _ hrest' (Nat.le_refl _) hlt
      · constructor
        · intro h; exact absurd h (Nat.succ_ne_zero i)
        · intro h
          have hx := h ch (by rw [htake1]; simp)
          rw [hm] at hx
          exact absurd hx (by simp)
      · rw [if_neg (Nat.succ_ne_zero i)]
        have hdrop1 : (inp.take (i + 1)).drop (i + 1) = [] := by
          apply List.drop_eq_nil_of_le
          simp [List.length_take]
        rw [hdrop1, List.append_nil, htake1, escapeBody_append]
        have hebch : escapeBody [ch] = [92, ec] := by
          simp [escapeBody, hm]
        rw [hebch]
        rw [← List.drop_take i start inp]
        by_cases hs : start = 0
        · rw [if_pos hs]
          subst hs
          have hnone := hiff.mp rfl
          rw [List.drop_zero]
          have heb : escapeBody (inp.take i) = inp.take i :=
            escapeBody_of_none hnone
          rw [if_pos rfl, heb, List.drop_zero, List.append_nil] at hbuf
          have hb : buf = buf0 := List.append_cancel_right hbuf
          rw [hb, heb]
          simp [List.append_assoc]
        · rw [if_neg hs]
          rw [if_neg hs] at hbuf
          calc (buf ++ (inp.take i).drop start) ++ [92, ec]
              = (buf0 ++ [101, 39] ++ escapeBody (inp.take i)) ++ [92, ec] := by
                rw [hbuf]
            _ = buf0 ++ [101, 39] ++ (escapeBody (inp.take i) ++ [92, ec]) := by
                simp [List.append_assoc]
    | none =>
      simp only [encodeSQLStringLoop, hm]
      apply ih (i + 1) start _ hrest' (Nat.le_succ_of_le hsi) hlt
      · rw [htake1]
        rw [hiff]
        constructor
        · intro h c hc
          rcases List.mem_append.mp hc with h1 | h2
          · exact h c h1
          · rw [List.mem_singleton.mp h2, hm]
        · intro h c hc
          exact h c (List.mem_append_left _ hc)
      · rw [htake1, escapeBody_append]
        have hebch : escapeBody [ch] = [ch] := by
          simp [escapeBody, hm]
        rw [hebch]
        rw [List.drop_append_of_le_length
          (show start ≤ (inp.take i).length by rw [htakelen]; exact hsi)]
        calc buf ++ ((inp.take i).drop start ++ [ch])
            = (buf ++ (inp.take i).drop start) ++ [ch] := by
              rw [List.append_assoc]
          _ = (buf0 ++ (if start = 0 then [] else [101, 39]) ++
                escapeBody (inp.take i)) ++ [ch] := by rw [hbuf]
          _ = buf0 ++ (if start = 0 then [] else [101, 39]) ++
                (escapeBody (inp.take i) ++ [ch]) := by
              simp [List.append_assoc]

end LampDB

namespace LampDB

/-- C2: `CanRestartTransaction` classifies restarts exactly as the spec
says: TransactionRetryError restarts immediately, TransactionAbortedError
and TransactionPushError restart with backoff, and
ReadWithinUncertaintyIntervalError restarts immediately. -/
theorem canRestartTransaction_classification :
    (∀ e : TransactionRetryError,
      e.CanRestartTransaction = TransactionRestart.IMMEDIATE) ∧
    (∀ e : TransactionAbortedError,
      e.CanRestartTransaction = TransactionRestart.BACKOFF) ∧
    (∀ e : TransactionPushError,
      e.CanRestartTransaction = TransactionRestart.BACKOFF) ∧
    (∀ e : ReadWithinUncertaintyIntervalError,
      e.CanRestartTransaction = TransactionRestart.IMMEDIATE) :=
  ⟨fun _ => rfl, fun _ => rfl, fun _ => rfl, fun _ => rfl⟩

/-- C5: every error the spec classes as retryable at the sender reports
itself retryable: `CanRetry` is true for RangeNotFoundError and
RangeKeyMismatchError, NotLeader and NodeUnavailable are sender-retryable,
and `LeaseRejectedError.CanRetry` is false. -/
theorem sender_retry_classification :
    (∀ e : RangeNotFoundError, e.CanRetry = true) ∧
    (∀ e : RangeKeyMismatchError, e.CanRetry = true) ∧
    (∀ e : LeaseRejectedError, e.CanRetry = false) ∧
    senderRetryable ErrorKind.notLeader = true ∧
    senderRetryable ErrorKind.nodeUnavailable = true ∧
    senderRetryable ErrorKind.rangeNotFound = true ∧
    senderRetryable ErrorKind.rangeKeyMismatch = true ∧
    senderRetryable ErrorKind.leaseRejected = false :=
  ⟨fun _ => rfl, fun _ => rfl, fun _ => rfl, rfl, rfl, rfl, rfl, rfl⟩

/-- C1: two commands conflict iff their key ranges overlap and at least one
is not read-only; a `GetWait` barrier completes only after every conflicting
previously added command has been removed via `Remove`, and completes
immediately (empty wait set) when every overlapping outstanding command and
the barrier are read-only. -/
theorem commandQueue_conflict_barrier_spec :
    (∀ a b : Span, SpanConflict a b ↔
      (∃ k, spanContains a.start a.endKey k ∧ spanContains b.start b.endKey k) ∧
        (a.readOnly = false ∨ b.readOnly = false)) ∧
    (∀ (q : CommandQueue) (s : Key) (e : Option Key),
      (∀ p ∈ q.cmds,
        spanOverlap s e p.2.start p.2.endKey → p.2.readOnly = true) →
      q.GetWait s e true = []) ∧
    (∀ (q : CommandQueue) (s : Key) (e : Option Key) (ro : Bool)
        (id : Nat) (c : Span), (id, c) ∈ q.cmds → SpanConflict ⟨s, e, ro⟩ c →
      ¬ barrierDone q (q.GetWait s e ro)) ∧
    (∀ (q : CommandQueue) (s : Key) (e : Option Key) (ro : Bool),
      barrierDone ((q.GetWait s e ro).foldl CommandQueue.Remove q)
        (q.GetWait s e ro)) := by
  refine ⟨?_, ?_, ?_, ?_⟩
  · intro a b
    unfold SpanConflict
    rw [spanOverlap_iff_exists]
  · intro q s e hro
    unfold CommandQueue.GetWait
    rw [List.map_eq_nil_iff, List.filter_eq_nil_iff]
    intro p hp
    simp only [decide_eq_true_eq]
    rintro ⟨hov, hro'⟩
    have := hro p hp hov
    rcases hro' with h | h
    · exact absurd h (by simp)
    · rw [this] at h; exact absurd h (by simp)
  · intro q s e ro id c hmem hconf hdone
    have hid : id ∈ q.GetWait s e ro := by
      unfold CommandQueue.GetWait
      exact List.mem_map.mpr ⟨(id, c),
        List.mem_filter.mpr ⟨hmem, decide_eq_true hconf⟩, rfl⟩
    exact hdone (id, c) hmem hid
  · intro q s e ro
    exact barrierDone_foldl_remove _ q

/-- C1 witness: in the scenario of TestCommandQueueNoWaitOnReadOnly, a
read-only command at key "a" (byte 97) gives a read-only barrier an empty
wait set, while a read-write barrier at "a" is blocked until the command is
removed; the spans conflict exactly per the overlap/read-only rule. -/
theorem commandQueue_conflict_barrier_spec_witness :
    (SpanConflict ⟨[97], none, false⟩ ⟨[97], none, true⟩ ↔
      (∃ k, spanContains [97] none k ∧ spanContains [97] none k) ∧
        ((false : Bool) = false ∨ (true : Bool) = false)) ∧
    (NewCommandQueue.Add [97] none true).2.GetWait [97] none true = [] ∧
    ¬ barrierDone (NewCommandQueue.Add [97] none true).2
      ((NewCommandQueue.Add [97] none true).2.GetWait [97] none false) ∧
    barrierDone
      (((NewCommandQueue.Add [97] none true).2.GetWait [97] none false).foldl
        CommandQueue.Remove (NewCommandQueue.Add [97] none true).2)
      ((NewCommandQueue.Add [97] none true).2.GetWait [97] none false) :=
  ⟨commandQueue_conflict_barrier_spec.1 ⟨[97], none, false⟩ ⟨[97], none, true⟩,
    commandQueue_conflict_barrier_spec.2.1 (NewCommandQueue.Add [97] none true).2
      [97] none (by decide),
    commandQueue_conflict_barrier_spec.2.2.1
      (NewCommandQueue.Add [97] none true).2 [97] none false 0
      ⟨[97], none, true⟩ (by decide) (by decide),
    commandQueue_conflict_barrier_spec.2.2.2
      (NewCommandQueue.Add [97] none true).2 [97] none false⟩

/-- C6: ServeHTTP answers 401 when authentication fails (hook creation or
user check), 404 when the path does not name a known public method, 400
when the body does not unmarshal or fails request verification, 500 on
body-read or response-marshal errors, and forwards to the sender exactly
the requests passing all checks. -/
theorem serveHTTP_status_classification :
    (∀ r : DBHTTPRequest, r.tlsAuthOk = false → ServeHTTP r = ⟨401, false⟩) ∧
    (∀ r : DBHTTPRequest, r.tlsAuthOk = true →
      (r.pathHasDBEndpoint = false ∨ r.method = none ∨
        (∃ m, r.method = some m ∧ isPublicMethod m = false)) →
      ServeHTTP r = ⟨404, false⟩) ∧
    (∀ (r : DBHTTPRequest) (m : Method), r.tlsAuthOk = true →
      r.pathHasDBEndpoint = true → r.method = some m →
      isPublicMethod m = true → r.bodyReadFails = true →
      ServeHTTP r = ⟨500, false⟩) ∧
    (∀ (r : DBHTTPRequest) (m : Method), r.tlsAuthOk = true →
      r.pathHasDBEndpoint = true → r.method = some m →
      isPublicMethod m = true → r.bodyReadFails = false →
      (r.body = none ∨
        (∃ req, r.body = some req ∧ verifyRequest req = true)) →
      ServeHTTP r = ⟨400, false⟩) ∧
    (∀ (r : DBHTTPRequest) (m : Method) (req : Request),
      r.tlsAuthOk = true → r.pathHasDBEndpoint = true →
      r.method = some m → isPublicMethod m = true →
      r.bodyReadFails = false → r.body = some req →
      verifyRequest req = false → r.certUserOk = false →
      ServeHTTP r = ⟨401, false⟩) ∧
    (∀ r : DBHTTPRequest,
      (ServeHTTP r).forwardedToSender = true ↔ allChecksPass r = true) ∧
    (∀ r : DBHTTPRequest, allChecksPass r = true →
      ServeHTTP r = if r.marshalFails then ⟨500, true⟩ else ⟨200, true⟩) := by
  refine ⟨?_, ?_, ?_, ?_, ?_, ?_, ?_⟩
  · intro r h; simp [ServeHTTP, h]
  · intro r h hpath
    rcases hpath with hp | hm | ⟨m, hm, hpub⟩
    · simp [ServeHTTP, h, hp]
    · simp [ServeHTTP, h, hm]
    · simp [ServeHTTP, h, hm, hpub]
  · intro r m h hp hm hpub hread
    simp [ServeHTTP, h, hp, hm, hpub, hread]
  · intro r m h hp hm hpub hread hbody
    rcases hbody with hb | ⟨req, hb, hv⟩
    · simp [ServeHTTP, h, hp, hm, hpub, hread, hb]
    · simp [ServeHTTP, h, hp, hm, hpub, hread, hb, hv]
  · intro r m req h hp hm hpub hread hb hv hcert
    simp [ServeHTTP, h, hp, hm, hpub, hread, hb, hv, hcert]
  · intro r
    rcases r with ⟨tls, path, method, readf, body, cert, marshal⟩
    cases method <;> cases body <;>
      cases tls <;> cases path <;> cases readf <;> cases cert <;>
      cases marshal <;>
      simp [ServeHTTP, allChecksPass] <;>
      split_ifs <;> simp_all
  · intro r hpass
    rcases r with ⟨tls, path, method, readf, body, cert, marshal⟩
    cases method with
    | none => simp [allChecksPass] at hpass
    | some m =>
      cases body with
      | none => simp [allChecksPass] at hpass
      | some req =>
        simp only [allChecksPass, Bool.and_eq_true, Bool.not_eq_true']
          at hpass
        obtain ⟨⟨⟨⟨⟨htls, hpath⟩, hpub⟩, hread⟩, hver⟩, hcert⟩ := hpass
        simp [ServeHTTP, htls, hpath, hpub, hread, hver, hcert]

/-- C6 witness: a request failing the TLS hook gets 401; a well-formed Get
request passing all checks is forwarded. -/
theorem serveHTTP_status_classification_witness :
    ServeHTTP ⟨false, true, some Method.get, false,
        some (Request.otherReq Method.get), true, false⟩ = ⟨401, false⟩ ∧
    ServeHTTP ⟨true, true, some Method.get, false,
        some (Request.otherReq Method.get), true, false⟩ = ⟨200, true⟩ :=
  ⟨serveHTTP_status_classification.1 _ rfl,
    serveHTTP_status_classification.2.2.2.2.2.2 _ (by decide)⟩

/-- C8: `verifyRequest` rejects exactly the BatchRequests containing a
non-public inner method and the EndTransactionRequests carrying an
InternalCommitTrigger, and ServeHTTP answers 400 for such a body without
forwarding it. -/
theorem verifyRequest_rejects_nonpublic :
    (∀ ms : List Method, verifyRequest (Request.batchReq ms) = true ↔
      ∃ m ∈ ms, isPublicMethod m = false) ∧
    (∀ trigger : Bool,
      verifyRequest (Request.endTransactionReq trigger) = true ↔
        trigger = true) ∧
    (∀ m : Method, verifyRequest (Request.otherReq m) = false) ∧
    (∀ (r : DBHTTPRequest) (m : Method) (req : Request),
      r.tlsAuthOk = true → r.pathHasDBEndpoint = true →
      r.method = some m → isPublicMethod m = true →
      r.bodyReadFails = false → r.body = some req →
      verifyRequest req = true → ServeHTTP r = ⟨400, false⟩) := by
  refine ⟨?_, ?_, ?_, ?_⟩
  · intro ms
    simp [verifyRequest, List.all_eq_true]
  · intro trigger
    simp [verifyRequest]
  · intro m
    rfl
  · intro r m req h hp hm hpub hread hb hv
    simp [ServeHTTP, h, hp, hm, hpub, hread, hb, hv]

/-- C8 witness: a Batch carrying an InternalPush request and an
EndTransaction carrying a commit trigger are both rejected, and ServeHTTP
answers 400 without forwarding the former. -/
theorem verifyRequest_rejects_nonpublic_witness :
    (verifyRequest (Request.batchReq [Method.get, Method.internalPush]) =
        true ↔
      ∃ m ∈ [Method.get, Method.internalPush], isPublicMethod m = false) ∧
    (verifyRequest (Request.endTransactionReq true) = true ↔
      (true : Bool) = true) ∧
    ServeHTTP ⟨true, true, some Method.batch, false,
        some (Request.batchReq [Method.get, Method.internalPush]), true,
        false⟩ = ⟨400, false⟩ :=
  ⟨verifyRequest_rejects_nonpublic.1 [Method.get, Method.internalPush],
    verifyRequest_rejects_nonpublic.2.1 true,
    verifyRequest_rejects_nonpublic.2.2.2 _ Method.batch
      (Request.batchReq [Method.get, Method.internalPush])
      rfl rfl rfl (by decide) rfl rfl (by decide)⟩

/-- C3: a `Put(key, value, writeTs)` against a version list holding some
version at `ts' ≥ writeTs` fails with a WriteTooOld error carrying the
attempted timestamp and the newest existing timestamp (which bounds every
version, so the caller may restart above it), and leaves the stored
versions unchanged. -/
theorem mvccPut_writeTooOld (versions : List (Timestamp × MVCCValue))
    (writeTs : Timestamp) (value : List Nat)
    (hs : versionsSorted versions)
    (hex : ∃ p ∈ versions, writeTs.LessEq p.1) :
    ∃ e : WriteTooOldError,
      mvccPut versions writeTs value = (some e, versions) ∧
      e.Timestamp = writeTs ∧
      (∃ p ∈ versions, p.1 = e.ExistingTimestamp) ∧
      writeTs.LessEq e.ExistingTimestamp ∧
      ∀ p ∈ versions, p.1.LessEq e.ExistingTimestamp := by
  match versions with
  | [] =>
    obtain ⟨p, hp, _⟩ := hex
    exact absurd hp (List.not_mem_nil p)
  | (ts1, v1) :: rest =>
    have hmax := versionsSorted_head_max hs
    have hle : writeTs.LessEq ts1 := by
      obtain ⟨p, hp, hwp⟩ := hex
      rcases List.mem_cons.mp hp with heq | hpr
      · rw [heq] at hwp; exact hwp
      · exact (hwp.trans_less (hmax p hpr)).lessEq
    refine ⟨⟨writeTs, ts1⟩, ?_, rfl, ?_, hle, ?_⟩
    · rw [mvccPut, if_pos hle]
    · exact ⟨(ts1, v1), List.mem_cons_self _ _, rfl⟩
    · intro p hp
      rcases List.mem_cons.mp hp with heq | hpr
      · rw [heq]; exact Timestamp.LessEq.refl ts1
      · exact (hmax p hpr).lessEq

/-- C3 witness: putting at wall time 3 below an existing version at wall
time 5 fails and leaves the version list unchanged. -/
theorem mvccPut_writeTooOld_witness :
    (mvccPut [(⟨5, 0⟩, ⟨false, [1]⟩)] ⟨3, 0⟩ [2]).2 =
      [(⟨5, 0⟩, ⟨false, [1]⟩)] ∧
    ((mvccPut [(⟨5, 0⟩, ⟨false, [1]⟩)] ⟨3, 0⟩ [2]).1).isSome = true := by
  obtain ⟨e, he, -, -, -, -⟩ :=
    mvccPut_writeTooOld [(⟨5, 0⟩, ⟨false, [1]⟩)] ⟨3, 0⟩ [2]
      (by decide) ⟨(⟨5, 0⟩, ⟨false, [1]⟩), by decide, by decide⟩
  rw [he]
  exact ⟨rfl, rfl⟩

/-- C4: after a successful non-transactional `Put(k, v, ts)`, a
`Get(k, ts)` returns `v`; and `Get` returns precisely the newest version
with timestamp ≤ the read timestamp, excluding tombstones. -/
theorem mvccPut_get_roundtrip :
    (∀ (versions : List (Timestamp × MVCCValue)) (writeTs : Timestamp)
        (value : List Nat), versionsSorted versions →
      (mvccPut versions writeTs value).1 = none →
      mvccGet (mvccPut versions writeTs value).2 writeTs = some value) ∧
    (∀ (versions : List (Timestamp × MVCCValue)) (readTs : Timestamp)
        (v : List Nat), versionsSorted versions →
      (mvccGet versions readTs = some v ↔
        ∃ p ∈ versions, p.1.LessEq readTs ∧ p.2.Deleted = false ∧
          p.2.Bytes = v ∧
          ∀ q ∈ versions, q.1.LessEq readTs → q.1.LessEq p.1)) := by
  constructor
  · intro versions writeTs value _ hok
    match versions with
    | [] =>
      rw [mvccPut]
      rw [mvccGet, if_pos (Timestamp.LessEq.refl writeTs)]
      rfl
    | (ts1, v1) :: rest =>
      rw [mvccPut] at hok ⊢
      by_cases hle : writeTs.LessEq ts1
      · rw [if_pos hle] at hok
        exact absurd hok (by simp)
      · rw [if_neg hle] at hok ⊢
        rw [mvccGet, if_pos (Timestamp.LessEq.refl writeTs)]
        rfl
  · exact mvccGet_characterization

/-- C4 witness: put of [5] at wall time 1 into the empty store succeeds and
a get at the same timestamp returns [5]; the get characterization holds on
a concrete two-version store. -/
theorem mvccPut_get_roundtrip_witness :
    mvccGet (mvccPut [] ⟨1, 0⟩ [5]).2 ⟨1, 0⟩ = some [5] ∧
    (mvccGet [(⟨4, 0⟩, ⟨false, [9]⟩), (⟨2, 0⟩, ⟨false, [7]⟩)] ⟨3, 0⟩ =
        some [7] ↔
      ∃ p ∈ [((⟨4, 0⟩ : Timestamp), (⟨false, [9]⟩ : MVCCValue)),
          (⟨2, 0⟩, ⟨false, [7]⟩)],
        p.1.LessEq ⟨3, 0⟩ ∧ p.2.Deleted = false ∧ p.2.Bytes = [7] ∧
        ∀ q ∈ [((⟨4, 0⟩ : Timestamp), (⟨false, [9]⟩ : MVCCValue)),
            (⟨2, 0⟩, ⟨false, [7]⟩)],
          q.1.LessEq ⟨3, 0⟩ → q.1.LessEq p.1) :=
  ⟨mvccPut_get_roundtrip.1 [] ⟨1, 0⟩ [5] (by decide) (by decide),
    mvccPut_get_roundtrip.2
      [(⟨4, 0⟩, ⟨false, [9]⟩), (⟨2, 0⟩, ⟨false, [7]⟩)] ⟨3, 0⟩ [7]
      (by decide)⟩

/-- C7 counterexample: a `zone get` invocation whose `GetYAML` call fails
against the server only logs the error; `cli.Run` sees no error and the
process exits 0, not 1. -/
theorem cli_exit_nonzero_on_zone_failure_false :
    mainExitCode (runGetZone ["db1"]
        (Except.error "connection refused")) = 0 ∧
    mainExitCode (runGetZone ["db1"]
        (Except.error "connection refused")) ≠ 1 ∧
    mainExitCode (runSetZone ["db1", "zone.yaml"] (Except.ok "cfg")
        (Except.error "connection refused")) = 0 :=
  ⟨rfl, by decide, rfl⟩

/-- C7 amended: the process exits 0 when `cli.Run` returns no error and 1
when it returns one; the zone get/set callbacks never hand `cli.Run` an
error — their failures against the server are logged only, so such
invocations exit 0. -/
theorem cli_exit_code_amended :
    mainExitCode none = 0 ∧
    (∀ e : String, mainExitCode (some e) = 1) ∧
    (∀ (args : List String) (g : Except String String),
      runGetZone args g = none) ∧
    (∀ (args : List String) (f : Except String String)
        (s : Except String Unit), runSetZone args f s = none) ∧
    (∀ (args : List String) (g : Except String String),
      mainExitCode (runGetZone args g) = 0) := by
  refine ⟨rfl, fun _ => rfl, ?_, ?_, ?_⟩
  · intro args g
    unfold runGetZone
    split
    · rfl
    · cases g <;> rfl
  · intro args f s
    unfold runSetZone
    split
    · rfl
    · cases f with
      | error _ => rfl
      | ok _ => cases s <;> rfl
  · intro args g
    unfold runGetZone
    split
    · rfl
    · cases g <;> rfl

/-- C10: `MemoryStorage.GroupStorage` is idempotent: after the first call
the group's storage is stored under its id, every repeated call returns the
same storage and state, and other groups' storages are untouched. -/
theorem memoryStorage_groupStorage_idempotent :
    (∀ (m : MemoryStorage) (gid : Nat),
      (m.GroupStorage gid).2.GroupStorage gid = m.GroupStorage gid) ∧
    (∀ (m : MemoryStorage) (gid : Nat),
      lookupGroup (m.GroupStorage gid).2.groups gid =
        some (m.GroupStorage gid).1) ∧
    (∀ (m : MemoryStorage) (gid gid' : Nat), gid' ≠ gid →
      lookupGroup (m.GroupStorage gid).2.groups gid' =
        lookupGroup m.groups gid') := by
  have hstore : ∀ (m : MemoryStorage) (gid : Nat),
      lookupGroup (m.GroupStorage gid).2.groups gid =
        some (m.GroupStorage gid).1 := by
    intro m gid
    unfold MemoryStorage.GroupStorage
    cases h : lookupGroup m.groups gid with
    | some g => simp [h]
    | none => simp [h, lookupGroup_append]
  refine ⟨?_, hstore, ?_⟩
  · intro m gid
    have h := hstore m gid
    set X := m.GroupStorage gid with hX
    unfold MemoryStorage.GroupStorage
    rw [h]
  · intro m gid gid' hne
    unfold MemoryStorage.GroupStorage
    cases h : lookupGroup m.groups gid with
    | some g => rfl
    | none =>
      simp only
      rw [lookupGroup_append]
      cases h' : lookupGroup m.groups gid' with
      | some x => rfl
      | none => simp [h', if_neg (Ne.symm hne)]

/-- C10 witness: on the empty storage, asking for group 3 twice returns the
same storage object and state, the storage is stored, and group 5's entry
is untouched. -/
theorem memoryStorage_groupStorage_idempotent_witness :
    (NewMemoryStorage.GroupStorage 3).2.GroupStorage 3 =
      NewMemoryStorage.GroupStorage 3 ∧
    lookupGroup (NewMemoryStorage.GroupStorage 3).2.groups 3 =
      some (NewMemoryStorage.GroupStorage 3).1 ∧
    lookupGroup (NewMemoryStorage.GroupStorage 3).2.groups 5 =
      lookupGroup NewMemoryStorage.groups 5 :=
  ⟨memoryStorage_groupStorage_idempotent.1 NewMemoryStorage 3,
    memoryStorage_groupStorage_idempotent.2.1 NewMemoryStorage 3,
    memoryStorage_groupStorage_idempotent.2.2 NewMemoryStorage 3 5
      (by decide)⟩

/-- C9: `encodeSQLString` escapes exactly the eight mapped bytes, each as a
backslash followed by its mapped character, and yields an `e'...'` literal
iff at least one byte was escaped, otherwise a plain `'...'` literal with
the input verbatim. -/
theorem encodeSQLString_spec :
    (∀ inp : List Nat,
      encodeSQLString [] inp =
        if hasEscapable inp then [101, 39] ++ (escapeBody inp ++ [39])
        else [39] ++ (inp ++ [39])) ∧
    (∀ c e : Nat, encodeMap c = some e ↔
      (c, e) ∈ [(0, 48), (8, 98), (12, 102), (10, 110), (13, 114),
        (9, 116), (92, 92), (39, 39)]) := by
  constructor
  · intro inp
    obtain ⟨hiff, heq⟩ :=
      encodeSQLStringLoop_invariant inp [] inp 0 0 []
        (List.drop_zero inp).symm (Nat.le_refl 0) (Nat.zero_le _)
        (iff_of_true rfl (by simp)) (by simp [escapeBody])
    obtain ⟨⟨b, s⟩, hr⟩ : ∃ p, encodeSQLStringLoop inp inp 0 0 [] = p :=
      ⟨_, rfl⟩
    rw [hr] at hiff heq
    unfold encodeSQLString
    rw [hr]
    show ((if s = 0 then b ++ [39] else b) ++ inp.drop s) ++ [39] = _
    by_cases hs : s = 0
    · have hnone := hiff.mp hs
      have hesc : hasEscapable inp = false := by
        simp only [hasEscapable, List.any_eq_false]
        intro c hc
        simp [hnone c hc]
      rw [if_pos hs, hs] at heq
      rw [if_pos hs, hs]
      rw [escapeBody_of_none hnone] at heq
      simp only [List.drop_zero, List.nil_append] at heq
      have hb : b = [] := by
        have h2 : b ++ inp = [] ++ inp := by rw [heq]; rfl
        exact List.append_cancel_right h2
      rw [hesc, hb]
      simp
    · have hesc : hasEscapable inp = true := by
        rcases not_forall.mp (hs ∘ hiff.mpr) with ⟨c, hc⟩
        rcases Classical.not_imp.mp hc with ⟨hmem, hnone⟩
        exact List.any_eq_true.mpr ⟨c, hmem, by
          cases h : encodeMap c with
          | none => exact absurd h hnone
          | some e => rfl⟩
      rw [if_neg hs] at heq
      rw [if_neg hs, hesc]
      simp only [List.nil_append] at heq
      rw [if_pos rfl, heq]
      simp [List.append_assoc]
  · intro c e
    constructor
    · intro h
      unfold encodeMap at h
      split_ifs at h <;> simp_all
    · intro h
      fin_cases h <;> rfl

end LampDB
